import Mathlib

set_option maxRecDepth 8000

/-!
Shallow embedding of the data ingestion and aggregation pipeline of the
public-health-insights dashboard (map.js revision of src/unnamed/part_000,
plus the year-dropdown extraction of src/script.js).

JavaScript values that occur in the pipeline are modelled by `Scalar`
(string, integer-valued number, or null); an absent object property is
`Option.none`.  Numeric scalars are modelled as integers, which covers
every value the surveillance datasets contain (years and case counts);
the JavaScript NaN produced by a failed Number() coercion is modelled as
`Option.none` of the coercion.
-/

inductive Scalar : Type
  | str (s : String)
  | num (n : Int)
  | null
deriving DecidableEq, Repr

instance {ε α : Type} [DecidableEq ε] [DecidableEq α] : DecidableEq (Except ε α) :=
  fun a b =>
    match a, b with
    | Except.ok x, Except.ok y =>
      if h : x = y then isTrue (by rw [h]) else
        isFalse (fun hc => h (by cases hc; rfl))
    | Except.error x, Except.error y =>
      if h : x = y then isTrue (by rw [h]) else
        isFalse (fun hc => h (by cases hc; rfl))
    | Except.ok _, Except.error _ => isFalse (fun hc => Except.noConfusion hc)
    | Except.error _, Except.ok _ => isFalse (fun hc => Except.noConfusion hc)

/-- RawRecord: one source row, a mapping from column name to scalar, kept in
object key order. -/
abbrev RawRecord := List (String × Scalar)

/-- Property access `r[k]`; an absent key yields `none` (undefined). -/
def getR (r : RawRecord) (k : String) : Option Scalar :=
  (r.find? (fun p => p.1 == k)).map (fun p => p.2)

/-- Object.prototype.hasOwnProperty.call(r, k). -/
def hasKey (r : RawRecord) (k : String) : Bool :=
  r.any (fun p => p.1 == k)

/-- JavaScript truthiness of a scalar. -/
def truthy : Scalar → Bool
  | Scalar.str s => s != ""
  | Scalar.num n => n != 0
  | Scalar.null => false

/-- JavaScript `a || b` on possibly-undefined scalars. -/
def jsOr (a b : Option Scalar) : Option Scalar :=
  match a with
  | some v => if truthy v then some v else b
  | none => b

/-- decimal digit character. -/
def digitChar (d : Nat) : Char :=
  if d = 0 then '0' else if d = 1 then '1' else if d = 2 then '2'
  else if d = 3 then '3' else if d = 4 then '4' else if d = 5 then '5'
  else if d = 6 then '6' else if d = 7 then '7' else if d = 8 then '8'
  else '9'

/-- fuel-driven digit printer; the fuel only serves structural recursion and
is irrelevant once it exceeds the number. -/
def natToCharsAux : Nat → Nat → List Char
  | 0, _ => []
  | fuel + 1, n =>
    if n < 10 then [digitChar n]
    else natToCharsAux fuel (n / 10) ++ [digitChar (n % 10)]

/-- decimal digits of a natural number, most significant first (the digits
JavaScript `String(n)` prints for a nonnegative integer). -/
def natToChars (n : Nat) : List Char := natToCharsAux (n + 1) n

/-- JavaScript `String(i)` for an integer-valued number. -/
def intToChars (i : Int) : List Char :=
  if i < 0 then '-' :: natToChars i.natAbs else natToChars i.toNat

def intToString (i : Int) : String := String.mk (intToChars i)

/-- value of a decimal digit character. -/
def digitVal (c : Char) : Option Nat :=
  if c = '0' then some 0 else if c = '1' then some 1 else if c = '2' then some 2
  else if c = '3' then some 3 else if c = '4' then some 4 else if c = '5' then some 5
  else if c = '6' then some 6 else if c = '7' then some 7 else if c = '8' then some 8
  else if c = '9' then some 9 else none

def digitsVal : List Char → Nat → Option Nat
  | [], acc => some acc
  | c :: rest, acc =>
    match digitVal c with
    | some d => digitsVal rest (acc * 10 + d)
    | none => none

def parseDigits : List Char → Option Nat
  | [] => none
  | l => digitsVal l 0

def parseSigned (l : List Char) : Option Int :=
  match l with
  | '-' :: rest => (parseDigits rest).map (fun n => -(n : Int))
  | '+' :: rest => (parseDigits rest).map (fun n => (n : Int))
  | _ => (parseDigits l).map (fun n => (n : Int))

def isWS (c : Char) : Bool := c.isWhitespace

/-- whitespace trimming on both ends, as String.prototype.trim. -/
def trimChars (l : List Char) : List Char :=
  ((l.dropWhile isWS).reverse.dropWhile isWS).reverse

/-- JavaScript `Number()` of a string restricted to integer numerals:
surrounding whitespace is ignored, the empty (or all-blank) string is 0,
anything that is not an optionally signed run of digits is NaN (`none`). -/
def numOfString (s : String) : Option Int :=
  let t := trimChars s.data
  if t.isEmpty then some 0 else parseSigned t

/-- JavaScript `Number()` of a possibly-undefined scalar; NaN is `none`. -/
def toNum : Option Scalar → Option Int
  | none => none
  | some Scalar.null => some 0
  | some (Scalar.num n) => some n
  | some (Scalar.str s) => numOfString s

/-- JavaScript `String()` of a scalar. -/
def jsString : Scalar → String
  | Scalar.str s => s
  | Scalar.num n => intToString n
  | Scalar.null => "null"

/-!  Field extraction used by loadAll (src/unnamed/part_000, lines 1087-1118). -/

/-- `String(r.State || r.state || '').trim()`. -/
def stateOf (r : RawRecord) : String :=
  String.mk (trimChars
    (jsString ((jsOr (jsOr (getR r "State") (getR r "state"))
                      (some (Scalar.str ""))).getD (Scalar.str ""))).data)

/-- `Number(r.Year || r.year)` of the pivot loop; NaN is `none`. -/
def yearNumOf (r : RawRecord) : Option Int :=
  toNum (jsOr (getR r "Year") (getR r "year"))

/-- `Number(r.Cases || r.cases) || 0`. -/
def casesOf (r : RawRecord) : Int :=
  match toNum (jsOr (getR r "Cases") (getR r "cases")) with
  | some n => if n != 0 then n else 0
  | none => 0

structure NormObs where
  state : String
  year : Int
  cases : Int
deriving DecidableEq, Repr

/-- the survival test of the pivot loop: a row is skipped when `!s || !y`,
that is when the trimmed state is empty or the year coerces to NaN or 0. -/
def normalizeRow (r : RawRecord) : Option NormObs :=
  let s := stateOf r
  match yearNumOf r with
  | none => none
  | some y => if s == "" || y == 0 then none else some ⟨s, y, casesOf r⟩

/-- one row of the years extraction
`Number(r.Year || r.year || null)` kept only when finite and truthy. -/
def rowYearOf (r : RawRecord) : Option Int :=
  match toNum (jsOr (jsOr (getR r "Year") (getR r "year")) (some Scalar.null)) with
  | none => none
  | some n => if n == 0 then none else some n

def insertI (x : Int) : List Int → List Int
  | [] => [x]
  | y :: ys => if x < y then x :: y :: ys else if x = y then y :: ys else y :: insertI x ys

/-- `Array.from(new Set(l)).sort((a,b)=>a-b)`: the strictly ascending
enumeration of the distinct elements. -/
def sortedDedupInt (l : List Int) : List Int := l.foldr insertI []

/-- code-unit comparison of the default `Array.prototype.sort()` on strings. -/
def charsLt : List Char → List Char → Bool
  | [], [] => false
  | [], _ :: _ => true
  | _ :: _, [] => false
  | a :: as, b :: bs =>
    if a.toNat < b.toNat then true
    else if b.toNat < a.toNat then false
    else charsLt as bs

def insertS (x : String) : List String → List String
  | [] => [x]
  | y :: ys =>
    if charsLt x.data y.data then x :: y :: ys
    else if x = y then y :: ys else y :: insertS x ys

/-- `Array.from(new Set(l)).sort()` on strings. -/
def sortedDedupStr (l : List String) : List String := l.foldr insertS []

/-- the `years` list of loadAll. -/
def yearsOf (rows : List RawRecord) : List Int :=
  sortedDedupInt (rows.filterMap rowYearOf)

/-- the `states` list of loadAll. -/
def statesOf (rows : List RawRecord) : List String :=
  sortedDedupStr ((rows.map stateOf).filter (fun s => s != ""))

abbrev YearMap := List (Int × Int)
abbrev PivotMap := List (String × YearMap)

def getA : YearMap → Int → Option Int
  | [], _ => none
  | (k, w) :: rest, y => if k == y then some w else getA rest y

def getP : PivotMap → String → Option YearMap
  | [], _ => none
  | (k, m) :: rest, s => if k == s then some m else getP rest s

/-- `pivot[s][y]` as an optional value (undefined when the cell is absent). -/
def lookup2 (p : PivotMap) (s : String) (y : Int) : Option Int :=
  match getP p s with
  | some m => getA m y
  | none => none

def setInner : YearMap → Int → Int → YearMap
  | [], y, v => [(y, v)]
  | (k, w) :: rest, y, v => if k == y then (y, v) :: rest else (k, w) :: setInner rest y v

/-- assignment `pivot[s][y] = v`; when the outer key is missing a fresh inner
object is created (that branch is unreachable in loadAll, where every
surviving state was pre-initialised from `states`). -/
def setPivot : PivotMap → String → Int → Int → PivotMap
  | [], s, y, v => [(s, [(y, v)])]
  | (k, m) :: rest, s, y, v =>
    if k == s then (k, setInner m y v) :: rest else (k, m) :: setPivot rest s y v

/-- one iteration of `rows.forEach` in the pivot construction:
`pivot[s][y] = (pivot[s][y] || 0) + c` for surviving rows. -/
def pivotStep (p : PivotMap) (r : RawRecord) : PivotMap :=
  match normalizeRow r with
  | none => p
  | some o => setPivot p o.state o.year ((lookup2 p o.state o.year).getD 0 + o.cases)

/-- `const pivot = {}; states.forEach(s => pivot[s] = {})`. -/
def pivotInit (rows : List RawRecord) : PivotMap :=
  (statesOf rows).map (fun s => (s, []))

def pivotOfRows (rows : List RawRecord) : PivotMap :=
  rows.foldl pivotStep (pivotInit rows)

/-- the consumers' read `pivot[s][y] || 0` (a stored 0 and an absent cell
both give 0). -/
def pivotAt (rows : List RawRecord) (s : String) (y : Int) : Int :=
  (lookup2 (pivotOfRows rows) s y).getD 0

/-- selectedYear resolution of loadAll: keep the requested year when
`years.includes` it, otherwise `years[years.length - 1]`. -/
def selYearOf (rows : List RawRecord) (req : Int) : Option Int :=
  if (yearsOf rows).contains req then some req else (yearsOf rows).getLast?

def listMin : List Int → Int
  | [] => 0
  | v :: vs => vs.foldl min v

def listMax : List Int → Int
  | [] => 0
  | v :: vs => vs.foldl max v

structure AggModel where
  years : List Int
  states : List String
  selectedYear : Option Int
  pivot : PivotMap
  stateValues : List (String × Int)
  minV : Int
  maxV : Int
  total : Int
deriving DecidableEq, Repr

/-- the aggregation part of loadAll (src/unnamed/part_000, lines 1081-1124):
the only failure is the `No data rows found` error thrown when the row list
is empty; everything after that point always succeeds. -/
def loadAllAgg (rows : List RawRecord) (req : Int) : Except String AggModel :=
  if rows.isEmpty then Except.error "No data rows found"
  else
    let years := yearsOf rows
    let states := statesOf rows
    let sel : Option Int := if years.contains req then some req else years.getLast?
    let piv := pivotOfRows rows
    let stateValues := states.map (fun s =>
      (s, match sel with
          | some y => (lookup2 piv s y).getD 0
          | none => 0))
    let vals := stateValues.map (fun q => q.2)
    Except.ok ⟨years, states, sel, piv, stateValues,
      listMin vals, listMax vals, vals.foldl (fun a b => a + b) 0⟩

def isOkE (e : Except String AggModel) : Bool :=
  match e with
  | Except.ok _ => true
  | Except.error _ => false

/-!  Year extraction of populateYearsForDisease (src/script.js, lines 111-128). -/

/-- the heuristic scan of the `else` branch: walk the columns in key order and
adopt the first non-null value whose Number() coercion is a non-NaN number
strictly between 1900 and 2100. -/
def scanYearHeuristic : List (String × Scalar) → Option Int
  | [] => none
  | (_, v) :: rest =>
    match v with
    | Scalar.null => scanYearHeuristic rest
    | w =>
      match toNum (some w) with
      | some n => if 1900 < n ∧ n < 2100 then some n else scanYearHeuristic rest
      | none => scanYearHeuristic rest

/-- the year one record contributes to the dropdown's year set: the
hasOwnProperty-guarded read of `Year` then `year`, else the heuristic scan;
a null (or still unset) `val` contributes nothing, as does a NaN coercion. -/
def yearOfRecord (r : RawRecord) : Option Int :=
  let val : Option Scalar :=
    if hasKey r "Year" then getR r "Year"
    else if hasKey r "year" then getR r "year"
    else
      match scanYearHeuristic r with
      | some n => some (Scalar.num n)
      | none => none
  match val with
  | none => none
  | some Scalar.null => none
  | some v => toNum (some v)

/-- the sorted year list the dropdown is populated from. -/
def scriptYearsOf (rows : List RawRecord) : List Int :=
  sortedDedupInt (rows.filterMap yearOfRecord)

/-!  Source resolver (src/unnamed/part_000, lines 514-524 and 594-608). -/

/-- the static disease-key to base-filename table. -/
def datasetsMap : List (String × String) :=
  [("HIV", "HIV_data.xlsx"), ("TB", "TB.xlsx"), ("Diabetes", "Diabetes.xlsx"),
   ("Hepatitis-B", "HepatitisB.xlsx"), ("Hepatitis-A", "HepatitisA.xlsx"),
   ("Hepatitis-C", "HepatitisC.xlsx"), ("Gonorrhea", "Gonorrhea.xlsx"),
   ("Chlamydia", "Chlamydia.xlsx"), ("syphilis", "syphilis.xlsx")]

def lookupDataset (k : String) : Option String :=
  (datasetsMap.find? (fun p => p.1 == k)).map (fun p => p.2)

/-- `base.replace(/\.xlsx$/i, '.json')`: swap a case-insensitive `.xlsx`
suffix for `.json`, otherwise leave the name alone. -/
def jsonCandidate (base : String) : String :=
  let cs := base.data
  let n := cs.length
  if 5 ≤ n ∧ (cs.drop (n - 5)).map Char.toLower = ".xlsx".data then
    String.mk (cs.take (n - 5) ++ ".json".data)
  else base

/-- outcome of the HEAD existence probe: 2xx, a non-ok response, or a thrown
network error. -/
inductive ProbeOutcome : Type
  | ok
  | notOk
  | thrown
deriving DecidableEq, Repr

/-- pickFilenameForKey: look the key up (throwing when the mapping is falsy),
probe the pre-converted `.json` candidate, return it on a 2xx response and
fall back to the base name on anything else, a thrown probe error included. -/
def pickFilenameForKey (probe : String → ProbeOutcome) (key : String) :
    Except String String :=
  match lookupDataset key with
  | none => Except.error ("No dataset mapping for " ++ key)
  | some base =>
    if base == "" then Except.error ("No dataset mapping for " ++ key)
    else
      match probe (jsonCandidate base) with
      | ProbeOutcome.ok => Except.ok (jsonCandidate base)
      | _ => Except.ok base

/-!  CSV export (src/unnamed/part_000, lines 1052-1061, matrix-chart branch)
and the delimited-text parser (lines 566-591). -/

/-- double every double-quote character, as `st.replace(/"/g, '""')`. -/
def escQuotes : List Char → List Char
  | [] => []
  | c :: cs => if c = '"' then '"' :: '"' :: escQuotes cs else c :: escQuotes cs

/-- the quoted state cell `'"' + st.replace(/"/g, '""') + '"'`. -/
def quoteState (st : String) : List Char :=
  '"' :: (escQuotes st.data ++ ['"'])

/-- one exported data cell `String(grid[st] && grid[st][yr] ? grid[st][yr] : 0)`:
an absent cell and a stored 0 both print as 0. -/
def csvCellChars (o : Option Int) : List Char :=
  match o with
  | some v => if v != 0 then intToChars v else intToChars 0
  | none => intToChars 0

/-- the header line `['State', ...xLabels].join(',')`. -/
def headerChars (years : List Int) : List Char :=
  "State".data ++ (years.map (fun y => ',' :: intToChars y)).flatten

/-- one exported state row, the `row.join(',')` of the quoted state followed
by one cell per year. -/
def rowChars (grid : String → Int → Option Int) (st : String) (years : List Int) :
    List Char :=
  quoteState st ++ (years.map (fun y => ',' :: csvCellChars (grid st y))).flatten

/-- `rows.join('\n')`. -/
def joinNL : List (List Char) → List Char
  | [] => []
  | l :: rest => l ++ (rest.map (fun r => '\n' :: r)).flatten

/-- exportVisibleCSV restricted to its pure text construction: the grid is the
state-by-year cell map assembled from the matrix chart's data points (an
absent entry is an absent cell), states and years are the chart's axis
labels. -/
def exportCSV (grid : String → Int → Option Int) (states : List String)
    (years : List Int) : String :=
  String.mk (joinNL (headerChars years :: states.map (fun st => rowChars grid st years)))

def countQ (l : List Char) : Nat := l.countP (fun c => c = '"')

/-- the splitting regex of csvLineToCols: a comma splits exactly when the
number of double quotes in the rest of the line after it is even (that is
the lookahead `(?:[^"]*"[^"]*")*[^"]*$`). -/
def splitCsvAux : List Char → List Char → List (List Char)
  | [], acc => [acc.reverse]
  | c :: rest, acc =>
    if c = ',' ∧ countQ rest % 2 = 0 then acc.reverse :: splitCsvAux rest []
    else splitCsvAux rest (c :: acc)

def splitCsvLine (l : List Char) : List (List Char) := splitCsvAux l []

/-- `v.replace(/""/g, '"')`: left-to-right non-overlapping collapse of doubled
quotes. -/
def unescQ : List Char → List Char
  | [] => []
  | [c] => [c]
  | c1 :: c2 :: cs =>
    if c1 = '"' ∧ c2 = '"' then '"' :: unescQ cs else c1 :: unescQ (c2 :: cs)

/-- per-column cleanup of csvLineToCols: trim, then strip one layer of
surrounding double quotes and collapse doubled quotes. -/
def processCol (l : List Char) : List Char :=
  let v := trimChars l
  if v.head? = some '"' ∧ v.getLast? = some '"' then unescQ (v.drop 1).dropLast
  else v

/-- csvLineToCols. -/
def csvLineToCols (line : List Char) : List (List Char) :=
  (splitCsvLine line).map processCol

/-- drop one trailing carriage return, the `\r?` of the line-split regex. -/
def dropCR (l : List Char) : List Char :=
  if l.getLast? = some '\r' then l.dropLast else l

/-- `text.split(/\r?\n/)`: split at every newline, absorbing one carriage
return directly in front of it. -/
def splitLinesAux : List Char → List Char → List (List Char)
  | [], acc => [acc.reverse]
  | c :: rest, acc =>
    if c = '\n' then dropCR acc.reverse :: splitLinesAux rest []
    else splitLinesAux rest (c :: acc)

def splitLines (t : List Char) : List (List Char) := splitLinesAux t []

/-- JavaScript object assignment `row[k] = v`: overwrite an existing key in
place, otherwise append. -/
def setKey (r : RawRecord) (k : String) (v : Scalar) : RawRecord :=
  if r.any (fun p => p.1 == k) then r.map (fun p => if p.1 == k then (k, v) else p)
  else r ++ [(k, v)]

/-- `cols[j] !== undefined ? cols[j] : null` for j below the header count. -/
def padScal : List (List Char) → Nat → List Scalar
  | _, 0 => []
  | [], n + 1 => Scalar.null :: padScal [] n
  | c :: cs, n + 1 => Scalar.str (String.mk c) :: padScal cs n

/-- the record-building loop of parseCSV over one data line. -/
def buildRow (headers : List (List Char)) (cols : List (List Char)) : RawRecord :=
  ((headers.map String.mk).zip (padScal cols headers.length)).foldl
    (fun r q => setKey r q.1 q.2) []

/-- parseCSV: split into lines, drop blank ones, read the first line as
headers, and zip every further line's columns against the headers. -/
def parseCSV (text : String) : List RawRecord :=
  match (splitLines text.data).filter (fun l => (trimChars l).length > 0) with
  | [] => []
  | hd :: rest => rest.map (fun line => buildRow (csvLineToCols hd) (csvLineToCols line))

/-!  Helper lemmas about the pivot store. -/

theorem getA_setInner_self (m : YearMap) (y v : Int) :
    getA (setInner m y v) y = some v := by
  induction m with
  | nil => simp [setInner, getA]
  | cons q rest ih =>
    obtain ⟨k, w⟩ := q
    by_cases h : k = y
    · subst h; simp [setInner, getA]
    · simp only [setInner, getA, beq_iff_eq, if_neg h]
      simpa [getA, beq_iff_eq, h] using ih

theorem getA_setInner_other (m : YearMap) (y v y' : Int) (h : y' ≠ y) :
    getA (setInner m y v) y' = getA m y' := by
  induction m with
  | nil => simp [setInner, getA, beq_iff_eq, Ne.symm h]
  | cons q rest ih =>
    obtain ⟨k, w⟩ := q
    by_cases hk : k = y
    · subst hk
      simp [setInner, getA, beq_iff_eq, Ne.symm h]
    · simp [setInner, getA, beq_iff_eq, hk, ih]

theorem getP_setPivot_self (p : PivotMap) (s : String) (y v : Int) :
    getP (setPivot p s y v) s = some (setInner ((getP p s).getD []) y v) := by
  induction p with
  | nil => simp [setPivot, getP, setInner]
  | cons q rest ih =>
    obtain ⟨k, m⟩ := q
    by_cases hk : k = s
    · subst hk; simp [setPivot, getP]
    · simp [setPivot, getP, beq_iff_eq, hk, ih]

theorem getP_setPivot_other (p : PivotMap) (s : String) (y v : Int) (s' : String)
    (h : s' ≠ s) : getP (setPivot p s y v) s' = getP p s' := by
  induction p with
  | nil => simp [setPivot, getP, beq_iff_eq, Ne.symm h]
  | cons q rest ih =>
    obtain ⟨k, m⟩ := q
    by_cases hk : k = s
    · subst hk
      simp [setPivot, getP, beq_iff_eq, Ne.symm h]
    · simp [setPivot, getP, beq_iff_eq, hk, ih]

theorem lookup2_setPivot_self (p : PivotMap) (s : String) (y v : Int) :
    lookup2 (setPivot p s y v) s y = some v := by
  simp [lookup2, getP_setPivot_self, getA_setInner_self]

theorem lookup2_setPivot_other (p : PivotMap) (s : String) (y v : Int)
    (s' : String) (y' : Int) (h : s' ≠ s ∨ y' ≠ y) :
    lookup2 (setPivot p s y v) s' y' = lookup2 p s' y' := by
  rcases h with h | h
  · simp [lookup2, getP_setPivot_other p s y v s' h]
  · by_cases hs : s' = s
    · subst hs
      simp only [lookup2, getP_setPivot_self, getA_setInner_other _ _ _ _ h]
      cases hp : getP p s' with
      | none => simp [getA]
      | some m => simp
    · simp [lookup2, getP_setPivot_other p s y v s' hs]

/-- sum of the case counts of the retained normalized observations matching
a given state and year. -/
def sumCasesAt (rows : List RawRecord) (s : String) (y : Int) : Int :=
  (((rows.filterMap normalizeRow).filter
      (fun o => o.state == s && o.year == y)).map (fun o => o.cases)).sum

theorem foldl_pivotStep_at (rows : List RawRecord) (p : PivotMap) (s : String)
    (y : Int) :
    (lookup2 (rows.foldl pivotStep p) s y).getD 0
      = (lookup2 p s y).getD 0 + sumCasesAt rows s y := by
  induction rows generalizing p with
  | nil => simp [sumCasesAt]
  | cons r rest ih =>
    simp only [List.foldl_cons]
    rw [ih]
    cases hn : normalizeRow r with
    | none =>
      simp [pivotStep, hn, sumCasesAt]
    | some o =>
      by_cases hmatch : o.state = s ∧ o.year = y
      · obtain ⟨hs, hy⟩ := hmatch
        have hstep : pivotStep p r
            = setPivot p o.state o.year ((lookup2 p o.state o.year).getD 0 + o.cases) := by
          simp [pivotStep, hn]
        rw [hstep, hs, hy, lookup2_setPivot_self]
        simp only [Option.getD_some]
        have hsum : sumCasesAt (r :: rest) s y = o.cases + sumCasesAt rest s y := by
          simp [sumCasesAt, List.filterMap_cons, hn, List.filter_cons, hs, hy]
        rw [hsum]
        omega
      · have hne : s ≠ o.state ∨ y ≠ o.year := by
          by_cases h1 : o.state = s
          · right
            intro hy
            exact hmatch ⟨h1, hy.symm⟩
          · left
            exact fun hc => h1 hc.symm
        have hstep : pivotStep p r
            = setPivot p o.state o.year ((lookup2 p o.state o.year).getD 0 + o.cases) := by
          simp [pivotStep, hn]
        rw [hstep, lookup2_setPivot_other _ _ _ _ _ _ hne]
        have hfilter : (o.state == s && o.year == y) = false := by
          rcases hne with h | h
          · simp [beq_iff_eq]
            intro hc
            exact absurd hc.symm h
          · simp [beq_iff_eq]
            intro _
            exact fun hc => h hc.symm
        have hsum : sumCasesAt (r :: rest) s y = sumCasesAt rest s y := by
          simp [sumCasesAt, List.filterMap_cons, hn, List.filter_cons, hfilter]
        rw [hsum]

theorem lookup2_allNilInner (l : List String) (s : String) (y : Int) :
    lookup2 (l.map (fun t => (t, ([] : YearMap)))) s y = none := by
  induction l with
  | nil => simp [lookup2, getP]
  | cons a rest ih =>
    by_cases h : a = s
    · subst h; simp [lookup2, getP, getA]
    · simpa [lookup2, getP, beq_iff_eq, h] using ih

/-- C1: the pivot built by the aggregation maps every (state, year) pair to
the sum of the case counts of all retained normalized rows sharing that
pair — repeated rows accumulate rather than overwrite; in particular two
Ohio 2019 rows with 10 and 5 cases yield pivot value 15. -/
theorem pivot_accumulates_cases :
    (∀ (rows : List RawRecord) (s : String) (y : Int),
      pivotAt rows s y = sumCasesAt rows s y) ∧
    pivotAt
      [[("State", Scalar.str "Ohio"), ("Year", Scalar.num 2019), ("Cases", Scalar.num 10)],
       [("State", Scalar.str "Ohio"), ("Year", Scalar.num 2019), ("Cases", Scalar.num 5)]]
      "Ohio" 2019 = 15 := by
  constructor
  · intro rows s y
    unfold pivotAt pivotOfRows pivotInit
    rw [foldl_pivotStep_at, lookup2_allNilInner]
    simp
  · decide

/-!  The years list is the strictly ascending enumeration of a set, so its
last element is its maximum. -/

theorem mem_insertI (a x : Int) (l : List Int) :
    a ∈ insertI x l ↔ a = x ∨ a ∈ l := by
  induction l with
  | nil => simp [insertI]
  | cons y ys ih =>
    by_cases h1 : x < y
    · have heq : insertI x (y :: ys) = x :: y :: ys := by
        simp [insertI, h1]
      rw [heq, List.mem_cons, List.mem_cons]
    · by_cases h2 : x = y
      · subst h2
        have heq : insertI x (x :: ys) = x :: ys := by
          simp [insertI, h1]
        rw [heq, List.mem_cons]
        tauto
      · have heq : insertI x (y :: ys) = y :: insertI x ys := by
          simp [insertI, h1, h2]
        rw [heq, List.mem_cons, ih, List.mem_cons]
        tauto

theorem pairwise_insertI (x : Int) (l : List Int)
    (h : l.Pairwise (fun a b => a < b)) :
    (insertI x l).Pairwise (fun a b => a < b) := by
  induction l with
  | nil => simp [insertI]
  | cons y ys ih =>
    rw [List.pairwise_cons] at h
    obtain ⟨hy, hys⟩ := h
    by_cases h1 : x < y
    · simp only [insertI, if_pos h1]
      rw [List.pairwise_cons]
      refine ⟨?_, ?_⟩
      · intro b hb
        rcases List.mem_cons.mp hb with hb | hb
        · omega
        · have := hy b hb
          omega
      · rw [List.pairwise_cons]
        exact ⟨hy, hys⟩
    · by_cases h2 : x = y
      · subst h2
        have heq : insertI x (x :: ys) = x :: ys := by
          simp [insertI, h1]
        rw [heq, List.pairwise_cons]
        exact ⟨hy, hys⟩
      · simp only [insertI, if_neg h1, if_neg h2]
        rw [List.pairwise_cons]
        refine ⟨?_, ih hys⟩
        intro b hb
        rcases (mem_insertI b x ys).mp hb with hb | hb
        · omega
        · exact hy b hb

theorem pairwise_sortedDedupInt (l : List Int) :
    (sortedDedupInt l).Pairwise (fun a b => a < b) := by
  induction l with
  | nil => simp [sortedDedupInt]
  | cons a rest ih => exact pairwise_insertI a _ ih

theorem mem_sortedDedupInt (a : Int) (l : List Int) :
    a ∈ sortedDedupInt l ↔ a ∈ l := by
  induction l with
  | nil => simp [sortedDedupInt]
  | cons b rest ih =>
    simp only [sortedDedupInt, List.foldr_cons]
    rw [mem_insertI, List.mem_cons]
    exact or_congr Iff.rfl ih

theorem getLast?_mem_of_ne_nil (l : List Int) (m : Int)
    (hm : l.getLast? = some m) : m ∈ l := by
  induction l with
  | nil => simp at hm
  | cons a rest ih =>
    cases rest with
    | nil =>
      simp [List.getLast?] at hm
      simp [hm]
    | cons b t =>
      rw [List.getLast?_cons_cons] at hm
      exact List.mem_cons_of_mem a (ih hm)

theorem getLast?_is_max (l : List Int) (h : l.Pairwise (fun a b => a < b))
    (x : Int) (hx : x ∈ l) (m : Int) (hm : l.getLast? = some m) : x ≤ m := by
  induction l with
  | nil => simp at hx
  | cons a rest ih =>
    cases rest with
    | nil =>
      simp at hx
      simp [List.getLast?] at hm
      omega
    | cons b t =>
      rw [List.getLast?_cons_cons] at hm
      rw [List.pairwise_cons] at h
      obtain ⟨ha, hrest⟩ := h
      rcases List.mem_cons.mp hx with hx | hx
      · subst hx
        have hmem : m ∈ b :: t := getLast?_mem_of_ne_nil _ _ hm
        have := ha m hmem
        omega
      · exact ih hrest hx hm

theorem contains_iff_mem_int (l : List Int) (a : Int) :
    l.contains a = true ↔ a ∈ l := by
  induction l with
  | nil => simp
  | cons b rest ih =>
    simp [List.contains, List.elem_cons]

/-- C2: for a row sequence with a non-empty extracted year set, the resolved
selectedYear is the requested year when the set includes it and the maximum
of the set otherwise. -/
theorem selectedYear_resolution (rows : List RawRecord) (req : Int)
    (h : yearsOf rows ≠ []) :
    (req ∈ yearsOf rows → selYearOf rows req = some req) ∧
    (req ∉ yearsOf rows →
      ∃ m, selYearOf rows req = some m ∧ m ∈ yearsOf rows ∧
        ∀ y ∈ yearsOf rows, y ≤ m) := by
  constructor
  · intro hm
    unfold selYearOf
    rw [if_pos ((contains_iff_mem_int _ _).mpr hm)]
  · intro hnm
    have hc : (yearsOf rows).contains req = false := by
      by_contra hcc
      have : (yearsOf rows).contains req = true := by
        cases hb : (yearsOf rows).contains req
        · exact absurd hb hcc
        · rfl
      exact hnm ((contains_iff_mem_int _ _).mp this)
    unfold selYearOf
    rw [hc]
    simp only [Bool.false_eq_true, if_false]
    cases hl : (yearsOf rows).getLast? with
    | none =>
      exfalso
      cases hys : yearsOf rows with
      | nil => exact h hys
      | cons a t =>
        rw [hys] at hl
        cases t with
        | nil => simp [List.getLast?] at hl
        | cons b t' => simp [List.getLast?_cons_cons, List.getLast?_eq_none_iff] at hl
    | some m =>
      refine ⟨m, rfl, getLast?_mem_of_ne_nil _ _ hl, ?_⟩
      intro y hy
      exact getLast?_is_max _ (pairwise_sortedDedupInt _) y hy m hl

/-- witness: scenario D, requested year 1999 against years 2005 and 2010
resolves to 2010. -/
theorem selectedYear_resolution_witness :
    ((1999 : Int) ∈ yearsOf [[("State", Scalar.str "U"), ("Year", Scalar.num 2005)],
        [("State", Scalar.str "U"), ("Year", Scalar.num 2010)]] →
      selYearOf [[("State", Scalar.str "U"), ("Year", Scalar.num 2005)],
        [("State", Scalar.str "U"), ("Year", Scalar.num 2010)]] 1999 = some 1999) ∧
    ((1999 : Int) ∉ yearsOf [[("State", Scalar.str "U"), ("Year", Scalar.num 2005)],
        [("State", Scalar.str "U"), ("Year", Scalar.num 2010)]] →
      ∃ m, selYearOf [[("State", Scalar.str "U"), ("Year", Scalar.num 2005)],
          [("State", Scalar.str "U"), ("Year", Scalar.num 2010)]] 1999 = some m ∧
        m ∈ yearsOf [[("State", Scalar.str "U"), ("Year", Scalar.num 2005)],
          [("State", Scalar.str "U"), ("Year", Scalar.num 2010)]] ∧
        ∀ y ∈ yearsOf [[("State", Scalar.str "U"), ("Year", Scalar.num 2005)],
          [("State", Scalar.str "U"), ("Year", Scalar.num 2010)]], y ≤ m) :=
  selectedYear_resolution
    [[("State", Scalar.str "U"), ("Year", Scalar.num 2005)],
     [("State", Scalar.str "U"), ("Year", Scalar.num 2010)]] 1999 (by decide)

/-- C3: the row with state " Texas ", string year "2020" and unparseable
cases "bad" normalizes to the retained observation (Texas, 2020, 0): the
state is trimmed, the year string coerces to 2020, the cases default to 0,
and the record still creates the pivot cell and contributes its year. -/
theorem texasRow_normalized_retained :
    normalizeRow [("State", Scalar.str " Texas "), ("Year", Scalar.str "2020"),
        ("Cases", Scalar.str "bad")] = some ⟨"Texas", 2020, 0⟩ ∧
    rowYearOf [("State", Scalar.str " Texas "), ("Year", Scalar.str "2020"),
        ("Cases", Scalar.str "bad")] = some 2020 ∧
    lookup2 (pivotOfRows [[("State", Scalar.str " Texas "), ("Year", Scalar.str "2020"),
        ("Cases", Scalar.str "bad")]]) "Texas" 2020 = some 0 :=
  ⟨by decide, by decide, by decide⟩

theorem hasKey_of_getR (r : RawRecord) (k : String) (v : Scalar)
    (h : getR r k = some v) : hasKey r k = true := by
  induction r with
  | nil => simp [getR] at h
  | cons q rest ih =>
    unfold getR at h
    rw [List.find?_cons] at h
    cases hq : (q.1 == k) with
    | true => simp [hasKey, hq]
    | false =>
      rw [hq] at h
      have := ih h
      simp [hasKey, List.any_cons, hq]
      simpa [hasKey] using this

/-- C4 counterexample: in the record where the exact-case keys hold the
falsy values State = "" and Cases = 0 while the lowercase alternates hold
"Ohio" and 5, loadAll's normalizer uses the lowercase values; the claim
predicts the exact-case values would win (the record would be dropped on
the empty state, with cases 0). -/
theorem exactCase_tiebreak_counterexample :
    normalizeRow [("State", Scalar.str ""), ("state", Scalar.str "Ohio"),
        ("Year", Scalar.num 2019), ("Cases", Scalar.num 0), ("cases", Scalar.num 5)]
      = some ⟨"Ohio", 2019, 5⟩ := by decide

/-- C4 amended: in loadAll's normalizer the exact-case key wins only when its
value is truthy; a falsy exact-case value (0, empty string, null) defers to
the lowercase alternate — for the State/state, Cases/cases and Year/year
chains alike.  Only the year extraction of script.js uses a hasOwnProperty
test, where the exact-case key's value decides regardless of truthiness. -/
theorem exactCase_tiebreak_amended :
    (∀ (r : RawRecord) (v : Scalar), getR r "State" = some v → truthy v = true →
      stateOf r = String.mk (trimChars (jsString v).data)) ∧
    (∀ (r : RawRecord) (v w : Scalar), getR r "State" = some v → truthy v = false →
      getR r "state" = some w → truthy w = true →
      stateOf r = String.mk (trimChars (jsString w).data)) ∧
    (∀ (r : RawRecord) (v : Scalar), getR r "Cases" = some v → truthy v = true →
      casesOf r = (toNum (some v)).getD 0) ∧
    (∀ (r : RawRecord) (v w : Scalar), getR r "Cases" = some v → truthy v = false →
      getR r "cases" = some w → truthy w = true →
      casesOf r = (toNum (some w)).getD 0) ∧
    (∀ (r : RawRecord) (v : Scalar), getR r "Year" = some v → truthy v = true →
      yearNumOf r = toNum (some v)) ∧
    (∀ (r : RawRecord) (v w : Scalar), getR r "Year" = some v → truthy v = false →
      getR r "year" = some w → truthy w = true →
      yearNumOf r = toNum (some w)) ∧
    (∀ (r : RawRecord) (v : Scalar), getR r "Year" = some v →
      yearOfRecord r = (match v with
        | Scalar.null => none
        | w => toNum (some w))) := by
  refine ⟨?_, ?_, ?_, ?_, ?_, ?_, ?_⟩
  · intro r v hv htr
    simp [stateOf, hv, jsOr, htr]
  · intro r v w hv htr hw htw
    simp [stateOf, hv, hw, jsOr, htr, htw]
  · intro r v hv htr
    simp only [casesOf, hv, jsOr, htr, if_pos]
    cases hn : toNum (some v) with
    | none => simp
    | some n =>
      by_cases h0 : n = 0
      · subst h0; simp
      · simp [h0]
  · intro r v w hv htr hw htw
    simp only [casesOf, hv, hw, jsOr, htr, htw, Bool.false_eq_true, if_false, if_pos]
    cases hn : toNum (some w) with
    | none => simp
    | some n =>
      by_cases h0 : n = 0
      · subst h0; simp
      · simp [h0]
  · intro r v hv htr
    simp [yearNumOf, hv, jsOr, htr]
  · intro r v w hv htr hw htw
    simp [yearNumOf, hv, hw, jsOr, htr, htw]
  · intro r v hv
    have hk := hasKey_of_getR r "Year" v hv
    cases v with
    | null => simp [yearOfRecord, hk, hv]
    | str s => simp [yearOfRecord, hk, hv]
    | num n => simp [yearOfRecord, hk, hv]

/-- witness for the amended tie-break rule: at the counterexample record the
lowercase state "Ohio" is the one the normalizer uses, and a falsy exact-case
Year 0 defers to the lowercase year 2019. -/
theorem exactCase_tiebreak_amended_witness :
    (stateOf [("State", Scalar.str ""), ("state", Scalar.str "Ohio"),
        ("Year", Scalar.num 2019), ("Cases", Scalar.num 0), ("cases", Scalar.num 5)]
      = String.mk (trimChars (jsString (Scalar.str "Ohio")).data)) ∧
    (yearNumOf [("Year", Scalar.num 0), ("year", Scalar.num 2019)]
      = toNum (some (Scalar.num 2019))) :=
  ⟨exactCase_tiebreak_amended.2.1
    [("State", Scalar.str ""), ("state", Scalar.str "Ohio"),
     ("Year", Scalar.num 2019), ("Cases", Scalar.num 0), ("cases", Scalar.num 5)]
    (Scalar.str "") (Scalar.str "Ohio") (by decide) (by decide) (by decide) (by decide),
   exactCase_tiebreak_amended.2.2.2.2.2.1
    [("Year", Scalar.num 0), ("year", Scalar.num 2019)]
    (Scalar.num 0) (Scalar.num 2019) (by decide) (by decide) (by decide) (by decide)⟩

/-- C6 counterexample: a single row with only a lowercase state and no year
yields zero usable observations, yet the aggregation succeeds with a
degenerate result (no years, undefined selected year, an all-zero snapshot)
instead of failing with a NoUsableData error. -/
theorem noUsableData_counterexample :
    loadAllAgg [[("state", Scalar.str "Maine")]] 2019
      = Except.ok ⟨[], ["Maine"], none, [("Maine", [])], [("Maine", 0)], 0, 0, 0⟩ := by
  decide

/-- C6 amended: the aggregation of loadAll fails only when the row list
itself is empty, and then with the plain `No data rows found` error; for any
non-empty row list it succeeds, even when normalization retains nothing. -/
theorem emptyRows_only_failure (rows : List RawRecord) (req : Int) :
    (rows = [] → loadAllAgg rows req = Except.error "No data rows found") ∧
    (rows ≠ [] → isOkE (loadAllAgg rows req) = true) := by
  constructor
  · intro h
    subst h
    rfl
  · intro h
    unfold loadAllAgg
    rw [if_neg (by simpa [List.isEmpty_iff] using h)]
    rfl

/-- witness: the Maine-only row list is non-empty, so aggregation succeeds. -/
theorem emptyRows_only_failure_witness :
    isOkE (loadAllAgg [[("state", Scalar.str "Maine")]] 2019) = true :=
  (emptyRows_only_failure [[("state", Scalar.str "Maine")]] 2019).2 (by decide)

theorem datasetsMap_vals_nonempty : ∀ p ∈ datasetsMap, ¬p.2 = "" := by decide

/-- C7: for a key absent from the table resolution fails with the
no-dataset-mapping error; for any present key it never fails, returning the
pre-converted .json candidate exactly when the probe reports success and
the base filename on a non-ok response or a thrown probe error alike. -/
theorem resolver_total_for_known_keys (probe : String → ProbeOutcome) (key : String) :
    (lookupDataset key = none →
      pickFilenameForKey probe key = Except.error ("No dataset mapping for " ++ key)) ∧
    (∀ base, lookupDataset key = some base →
      pickFilenameForKey probe key =
        Except.ok (if probe (jsonCandidate base) = ProbeOutcome.ok
                   then jsonCandidate base else base)) := by
  constructor
  · intro h
    simp [pickFilenameForKey, h]
  · intro base hb
    have hpmem : ∃ p, List.find? (fun p => p.1 == key) datasetsMap = some p ∧ p.2 = base := by
      unfold lookupDataset at hb
      cases hf : List.find? (fun p => p.1 == key) datasetsMap with
      | none => rw [hf] at hb; simp at hb
      | some p =>
        rw [hf] at hb
        simp at hb
        exact ⟨p, rfl, hb⟩
    obtain ⟨p, hf, hpb⟩ := hpmem
    have hne : base ≠ "" := by
      have hp := List.mem_of_find?_eq_some hf
      have := datasetsMap_vals_nonempty p hp
      rw [hpb] at this
      exact this
    have hcond : (base == "") = false := by
      cases hb2 : base == "" with
      | false => rfl
      | true => exact absurd (by simpa using hb2) hne
    unfold pickFilenameForKey
    rw [hb]
    simp only [hcond, Bool.false_eq_true, if_false]
    cases hpo : probe (jsonCandidate base) with
    | ok => rfl
    | notOk => rfl
    | thrown => rfl

/-- witness: the key HIV resolves to the .json candidate when the probe
succeeds and to the base .xlsx file when the probe throws. -/
theorem resolver_total_for_known_keys_witness :
    pickFilenameForKey (fun _ => ProbeOutcome.thrown) "HIV" = Except.ok "HIV_data.xlsx" ∧
    pickFilenameForKey (fun _ => ProbeOutcome.ok) "HIV" = Except.ok "HIV_data.json" := by
  have h1 := (resolver_total_for_known_keys (fun _ => ProbeOutcome.thrown) "HIV").2
    "HIV_data.xlsx" (by decide)
  have h2 := (resolver_total_for_known_keys (fun _ => ProbeOutcome.ok) "HIV").2
    "HIV_data.xlsx" (by decide)
  constructor
  · rw [h1]; decide
  · rw [h2]; decide

theorem falsy_toNum (v : Scalar) (h : truthy v = false) : toNum (some v) = some 0 := by
  cases v with
  | null => rfl
  | num n =>
    simp [truthy] at h
    simp [toNum, h]
  | str s =>
    simp [truthy] at h
    subst h
    rfl

/-- C9: a row whose year chain coerces to the number 0 is treated as having
no year at all: it contributes nothing to the years list and the pivot loop
leaves the pivot unchanged. -/
theorem zeroYear_contributes_nothing (r : RawRecord) (p : PivotMap)
    (h : toNum (jsOr (jsOr (getR r "Year") (getR r "year")) (some Scalar.null))
          = some 0) :
    rowYearOf r = none ∧ pivotStep p r = p := by
  have hnorm : normalizeRow r = none := by
    unfold normalizeRow yearNumOf
    cases hA : jsOr (getR r "Year") (getR r "year") with
    | none => rfl
    | some v =>
      cases htr : truthy v with
      | true =>
        rw [hA] at h
        have : jsOr (some v) (some Scalar.null) = some v := by
          simp [jsOr, htr]
        rw [this] at h
        simp [h]
      | false =>
        rw [falsy_toNum v htr]
        simp
  refine ⟨?_, ?_⟩
  · unfold rowYearOf
    rw [h]
    simp
  · simp [pivotStep, hnorm]

/-- witness: a literal Year 0 row is ignored by both extractions. -/
theorem zeroYear_contributes_nothing_witness :
    rowYearOf [("Year", Scalar.num 0)] = none ∧
    pivotStep [] [("Year", Scalar.num 0)] = [] :=
  zeroYear_contributes_nothing [("Year", Scalar.num 0)] [] (by decide)

theorem list_map_congr {α β : Type} (l : List α) (f g : α → β)
    (h : ∀ a ∈ l, f a = g a) : l.map f = l.map g := by
  induction l with
  | nil => rfl
  | cons a rest ih =>
    simp only [List.map_cons]
    rw [h a (List.mem_cons_self a rest), ih (fun b hb => h b (List.mem_cons_of_mem a hb))]

theorem csvCell_zero_absent (o1 o2 : Option Int)
    (h : o1 = o2 ∨ (o1 = some 0 ∧ o2 = none) ∨ (o1 = none ∧ o2 = some 0)) :
    csvCellChars o1 = csvCellChars o2 := by
  rcases h with h | ⟨h1, h2⟩ | ⟨h1, h2⟩
  · rw [h]
  · rw [h1, h2]; rfl
  · rw [h1, h2]; rfl

/-- C10: two grids that differ only in cells storing 0 versus being entirely
absent export to character-identical CSV text. -/
theorem export_zero_vs_absent (g1 g2 : String → Int → Option Int)
    (states : List String) (years : List Int)
    (h : ∀ s y, g1 s y = g2 s y ∨ (g1 s y = some 0 ∧ g2 s y = none) ∨
      (g1 s y = none ∧ g2 s y = some 0)) :
    exportCSV g1 states years = exportCSV g2 states years := by
  unfold exportCSV
  have hrows : states.map (fun st => rowChars g1 st years)
      = states.map (fun st => rowChars g2 st years) := by
    apply list_map_congr
    intro st _
    unfold rowChars
    have : years.map (fun y => ',' :: csvCellChars (g1 st y))
        = years.map (fun y => ',' :: csvCellChars (g2 st y)) := by
      apply list_map_congr
      intro y _
      rw [csvCell_zero_absent (g1 st y) (g2 st y) (h st y)]
    rw [this]
  rw [hrows]

/-- witness: an all-zero grid and an all-absent grid print the same file. -/
theorem export_zero_vs_absent_witness :
    exportCSV (fun _ _ => some 0) ["Ohio"] [2019]
      = exportCSV (fun _ _ => none) ["Ohio"] [2019] :=
  export_zero_vs_absent (fun _ _ => some 0) (fun _ _ => none) ["Ohio"] [2019]
    (fun _ _ => Or.inr (Or.inl ⟨rfl, rfl⟩))

/-- the adoption test the heuristic scan applies to a single column value:
non-null, coercing to a non-NaN number strictly between 1900 and 2100. -/
def candidateYear (v : Scalar) : Option Int :=
  match v with
  | Scalar.null => none
  | w =>
    match toNum (some w) with
    | some n => if 1900 < n ∧ n < 2100 then some n else none
    | none => none

theorem scan_cons (q : String × Scalar) (rest : List (String × Scalar)) :
    scanYearHeuristic (q :: rest) =
      match candidateYear q.2 with
      | some n => some n
      | none => scanYearHeuristic rest := by
  obtain ⟨k, v⟩ := q
  cases v with
  | null => rfl
  | str s =>
    simp only [scanYearHeuristic, candidateYear]
    cases hn : toNum (some (Scalar.str s)) with
    | none => rfl
    | some n =>
      by_cases hr : 1900 < n ∧ n < 2100
      · simp [hr]
      · simp [hr]
  | num n =>
    simp only [scanYearHeuristic, candidateYear]
    cases hn : toNum (some (Scalar.num n)) with
    | none => rfl
    | some m =>
      by_cases hr : 1900 < m ∧ m < 2100
      · simp [hr]
      · simp [hr]

theorem scan_none_iff (l : List (String × Scalar)) :
    scanYearHeuristic l = none ↔ ∀ q ∈ l, candidateYear q.2 = none := by
  induction l with
  | nil => simp [scanYearHeuristic]
  | cons q rest ih =>
    rw [scan_cons]
    cases hc : candidateYear q.2 with
    | some m => simp [hc]
    | none => simp [hc, ih]

theorem scan_some_iff (l : List (String × Scalar)) (n : Int) :
    scanYearHeuristic l = some n ↔
      ∃ pre q post, l = pre ++ q :: post ∧ candidateYear q.2 = some n ∧
        ∀ x ∈ pre, candidateYear x.2 = none := by
  constructor
  · intro h
    induction l with
    | nil => simp [scanYearHeuristic] at h
    | cons q rest ih =>
      rw [scan_cons] at h
      cases hc : candidateYear q.2 with
      | some m =>
        rw [hc] at h
        simp at h
        subst h
        exact ⟨[], q, rest, rfl, hc, by simp⟩
      | none =>
        rw [hc] at h
        simp at h
        obtain ⟨pre, q', post, hl, hq', hpre⟩ := ih h
        refine ⟨q :: pre, q', post, by rw [hl, List.cons_append], hq', ?_⟩
        intro x hx
        rcases List.mem_cons.mp hx with hx | hx
        · subst hx; exact hc
        · exact hpre x hx
  · rintro ⟨pre, q, post, hl, hq, hpre⟩
    subst hl
    induction pre with
    | nil =>
      rw [List.nil_append, scan_cons, hq]
    | cons x pre' ih =>
      rw [List.cons_append, scan_cons, hpre x (List.mem_cons_self x _)]
      exact ih (fun b hb => hpre b (List.mem_cons_of_mem x hb))

theorem yearOfRecord_no_year_keys (r : RawRecord)
    (hY : hasKey r "Year" = false) (hy : hasKey r "year" = false) :
    yearOfRecord r = scanYearHeuristic r := by
  unfold yearOfRecord
  simp only [hY, hy, Bool.false_eq_true, if_false]
  cases hs : scanYearHeuristic r with
  | none => rfl
  | some n => rfl

/-- C5: for a record with neither a Year nor a year key, the adopted year is
the value of the first column (in key order) that is non-null and coerces to
a number strictly between 1900 and 2100; when no column qualifies the record
is year-less and contributes nothing to the dropdown's year set. -/
theorem heuristicYear_first_in_range (r : RawRecord)
    (hY : hasKey r "Year" = false) (hy : hasKey r "year" = false) :
    (∀ n : Int, yearOfRecord r = some n ↔
      ∃ pre q post, r = pre ++ q :: post ∧ candidateYear q.2 = some n ∧
        ∀ x ∈ pre, candidateYear x.2 = none) ∧
    (yearOfRecord r = none ↔ ∀ q ∈ r, candidateYear q.2 = none) ∧
    (yearOfRecord r = none → ∀ rows, scriptYearsOf (r :: rows) = scriptYearsOf rows) := by
  rw [yearOfRecord_no_year_keys r hY hy]
  refine ⟨fun n => scan_some_iff r n, scan_none_iff r, ?_⟩
  intro h rows
  have hnone : yearOfRecord r = none := by
    rw [yearOfRecord_no_year_keys r hY hy]
    exact h
  simp [scriptYearsOf, List.filterMap_cons, hnone]

/-- witness: with no Year columns the value "hello" is skipped (NaN) and the
numeric string "1950" is adopted. -/
theorem heuristicYear_first_in_range_witness :
    yearOfRecord [("x", Scalar.str "hello"), ("y", Scalar.str "1950")] = some 1950 :=
  ((heuristicYear_first_in_range [("x", Scalar.str "hello"), ("y", Scalar.str "1950")]
      (by decide) (by decide)).1 1950).mpr
    ⟨[("x", Scalar.str "hello")], ("y", Scalar.str "1950"), [], rfl, by decide, by decide⟩

/-!  Decimal digit strings: the fuel in natToCharsAux is irrelevant once
adequate, every character is a digit, and the printing is injective. -/

theorem natToCharsAux_irrel (f1 : Nat) : ∀ (f2 n : Nat), n < f1 → n < f2 →
    natToCharsAux f1 n = natToCharsAux f2 n := by
  induction f1 with
  | zero => intro f2 n h1 _; omega
  | succ f ih =>
    intro f2 n h1 h2
    cases f2 with
    | zero => omega
    | succ g =>
      unfold natToCharsAux
      by_cases h10 : n < 10
      · simp [h10]
      · simp only [h10, if_false]
        have hrec : natToCharsAux f (n / 10) = natToCharsAux g (n / 10) := by
          have hlt : n / 10 < f := by omega
          have hlt2 : n / 10 < g := by omega
          rw [ih g (n / 10) hlt hlt2]
        rw [hrec]

theorem natToCharsAux_succ (f n : Nat) :
    natToCharsAux (f + 1) n = if n < 10 then [digitChar n]
      else natToCharsAux f (n / 10) ++ [digitChar (n % 10)] := rfl

theorem natToChars_unfold (n : Nat) :
    natToChars n = if n < 10 then [digitChar n]
      else natToChars (n / 10) ++ [digitChar (n % 10)] := by
  unfold natToChars
  rw [natToCharsAux_succ]
  by_cases h10 : n < 10
  · simp [h10]
  · simp only [h10, if_false]
    congr 1
    exact natToCharsAux_irrel n (n / 10 + 1) (n / 10) (by omega) (by omega)

theorem natToChars_ne_nil (n : Nat) : natToChars n ≠ [] := by
  rw [natToChars_unfold]
  by_cases h : n < 10
  · simp [h]
  · simp [h]

theorem natToChars_all_digits (n : Nat) :
    ∀ c ∈ natToChars n, c.isDigit = true := by
  induction n using Nat.strong_induction_on with
  | _ n ih =>
    intro c hc
    rw [natToChars_unfold] at hc
    have hdig : ∀ d : Nat, (digitChar d).isDigit = true := by
      intro d
      unfold digitChar
      split_ifs <;> decide
    by_cases h : n < 10
    · rw [if_pos h] at hc
      simp at hc
      rw [hc]
      exact hdig n
    · rw [if_neg h] at hc
      rcases List.mem_append.mp hc with hc | hc
      · exact ih (n / 10) (by omega) c hc
      · simp at hc
        rw [hc]
        exact hdig (n % 10)

theorem digitChar_inj_lt10 :
    ∀ a < 10, ∀ b < 10, digitChar a = digitChar b → a = b := by decide

theorem natToChars_inj (m : Nat) : ∀ n, natToChars m = natToChars n → m = n := by
  induction m using Nat.strong_induction_on with
  | _ m ih =>
    intro n h
    rw [natToChars_unfold m, natToChars_unfold n] at h
    by_cases hm : m < 10
    · by_cases hn : n < 10
      · rw [if_pos hm, if_pos hn] at h
        simp at h
        exact digitChar_inj_lt10 m hm n hn h
      · rw [if_pos hm, if_neg hn] at h
        have hlen := congrArg List.length h
        rw [List.length_append] at hlen
        simp only [List.length_cons, List.length_nil] at hlen
        have hp : 0 < (natToChars (n / 10)).length :=
          List.length_pos.mpr (natToChars_ne_nil _)
        omega
    · by_cases hn : n < 10
      · rw [if_neg hm, if_pos hn] at h
        have hlen := congrArg List.length h
        rw [List.length_append] at hlen
        simp only [List.length_cons, List.length_nil] at hlen
        have hp : 0 < (natToChars (m / 10)).length :=
          List.length_pos.mpr (natToChars_ne_nil _)
        omega
      · rw [if_neg hm, if_neg hn] at h
        have hsplit := List.append_inj' h (by simp)
        obtain ⟨hpre, hlast⟩ := hsplit
        simp at hlast
        have hmod : m % 10 = n % 10 :=
          digitChar_inj_lt10 (m % 10) (by omega) (n % 10) (by omega) hlast
        have hdiv : m / 10 = n / 10 := ih (m / 10) (by omega) (n / 10) hpre
        omega

theorem digit_not_dash (c : Char) (h : c.isDigit = true) : c ≠ '-' := by
  intro hc
  subst hc
  simp at h

theorem intToChars_inj (i j : Int) (h : intToChars i = intToChars j) : i = j := by
  unfold intToChars at h
  by_cases hi : i < 0
  · by_cases hj : j < 0
    · rw [if_pos hi, if_pos hj] at h
      simp at h
      have := natToChars_inj i.natAbs j.natAbs h
      omega
    · rw [if_pos hi, if_neg hj] at h
      exfalso
      have hd : '-' ∈ natToChars j.toNat := by
        rw [← h]
        exact List.mem_cons_self _ _
      exact digit_not_dash '-' (natToChars_all_digits j.toNat '-' hd) rfl
  · by_cases hj : j < 0
    · rw [if_neg hi, if_pos hj] at h
      exfalso
      have hd : '-' ∈ natToChars i.toNat := by
        rw [h]
        exact List.mem_cons_self _ _
      exact digit_not_dash '-' (natToChars_all_digits i.toNat '-' hd) rfl
    · rw [if_neg hi, if_neg hj] at h
      have := natToChars_inj i.toNat j.toNat h
      omega

theorem intToString_inj : Function.Injective intToString := by
  intro i j h
  unfold intToString at h
  have hd : intToChars i = intToChars j := congrArg String.data h
  exact intToChars_inj i j hd

/-- digit characters are safe CSV payload: not a comma, quote, line break or
whitespace. -/
theorem digit_safe (c : Char) (h : c.isDigit = true) :
    c ≠ ',' ∧ c ≠ '"' ∧ c ≠ '\n' ∧ c ≠ '\r' ∧ isWS c = false := by
  refine ⟨?_, ?_, ?_, ?_, ?_⟩
  · intro hc; subst hc; exact absurd h (by decide)
  · intro hc; subst hc; exact absurd h (by decide)
  · intro hc; subst hc; exact absurd h (by decide)
  · intro hc; subst hc; exact absurd h (by decide)
  · unfold isWS
    cases hw : c.isWhitespace with
    | false => rfl
    | true =>
      exfalso
      have hh : ((c = ' ' ∨ c = '\t') ∨ c = '\r') ∨ c = '\n' := by
        simpa [Char.isWhitespace] using hw
      rcases hh with ((hc | hc) | hc) | hc <;> (subst hc; exact absurd h (by decide))

theorem intToChars_safe (i : Int) :
    ∀ c ∈ intToChars i, c ≠ ',' ∧ c ≠ '"' ∧ c ≠ '\n' ∧ c ≠ '\r' ∧ isWS c = false := by
  intro c hc
  unfold intToChars at hc
  by_cases hi : i < 0
  · rw [if_pos hi] at hc
    rcases List.mem_cons.mp hc with hc | hc
    · subst hc
      refine ⟨by decide, by decide, by decide, by decide, by decide⟩
    · exact digit_safe c (natToChars_all_digits _ c hc)
  · rw [if_neg hi] at hc
    exact digit_safe c (natToChars_all_digits _ c hc)

/-!  Quote escaping. -/

theorem mem_escQuotes (l : List Char) (c : Char) (h : c ∈ escQuotes l) : c ∈ l := by
  induction l with
  | nil => simp [escQuotes] at h
  | cons d rest ih =>
    by_cases hd : d = '"'
    · subst hd
      simp only [escQuotes, if_pos rfl] at h
      rcases List.mem_cons.mp h with hc | h2
      · simp [hc]
      · rcases List.mem_cons.mp h2 with hc | h3
        · simp [hc]
        · exact List.mem_cons_of_mem _ (ih h3)
    · simp only [escQuotes, if_neg hd] at h
      rcases List.mem_cons.mp h with hc | h2
      · simp [hc]
      · exact List.mem_cons_of_mem _ (ih h2)

theorem countQ_escQuotes (l : List Char) : countQ (escQuotes l) = 2 * countQ l := by
  induction l with
  | nil => rfl
  | cons d rest ih =>
    by_cases hd : d = '"'
    · subst hd
      rw [show escQuotes ('"' :: rest) = '"' :: '"' :: escQuotes rest from by
        simp [escQuotes]]
      have h1 : countQ ('"' :: '"' :: escQuotes rest) = countQ (escQuotes rest) + 2 := by
        simp [countQ, List.countP_cons]
      have h2 : countQ ('"' :: rest) = countQ rest + 1 := by
        simp [countQ, List.countP_cons]
      rw [h1, h2, ih]
      ring
    · rw [show escQuotes (d :: rest) = d :: escQuotes rest from by
        simp [escQuotes, hd]]
      have h1 : countQ (d :: escQuotes rest) = countQ (escQuotes rest) := by
        simp [countQ, List.countP_cons, hd]
      have h2 : countQ (d :: rest) = countQ rest := by
        simp [countQ, List.countP_cons, hd]
      rw [h1, h2, ih]

theorem unesc_esc (l : List Char) : unescQ (escQuotes l) = l := by
  induction l with
  | nil => rfl
  | cons c rest ih =>
    by_cases hc : c = '"'
    · subst hc
      rw [show escQuotes ('"' :: rest) = '"' :: '"' :: escQuotes rest from by
        simp [escQuotes]]
      rw [show unescQ ('"' :: '"' :: escQuotes rest) = '"' :: unescQ (escQuotes rest) from by
        cases hr : escQuotes rest with
        | nil => simp [unescQ]
        | cons d t => simp [unescQ]]
      rw [ih]
    · simp only [escQuotes, if_neg hc]
      cases hr : escQuotes rest with
      | nil =>
        have hrest : rest = [] := by
          cases rest with
          | nil => rfl
          | cons d t =>
            exfalso
            by_cases hd : d = '"'
            · subst hd; simp [escQuotes] at hr
            · simp [escQuotes, hd] at hr
        subst hrest
        simp [unescQ]
      | cons d t =>
        rw [show unescQ (c :: d :: t) = c :: unescQ (d :: t) from by
          simp [unescQ, hc]]
        rw [← hr, ih]

/-- inside an escaped string, the suffix after any comma holds an even number
of double quotes, because escaping emits quotes only in adjacent pairs. -/
theorem esc_comma_suffix_even (st : List Char) :
    ∀ a b, escQuotes st = a ++ ',' :: b → countQ b % 2 = 0 := by
  induction st with
  | nil =>
    intro a b h
    exfalso
    have hlen : ([] : List Char).length = (a ++ ',' :: b).length := by
      rw [show escQuotes [] = [] from rfl] at h
      exact congrArg List.length h
    simp at hlen
    omega
  | cons c rest ih =>
    intro a b h
    by_cases hc : c = '"'
    · subst hc
      simp only [escQuotes, if_pos rfl] at h
      cases a with
      | nil =>
        simp at h
      | cons x a' =>
        rw [List.cons_append] at h
        have hx := (List.cons.injEq _ _ _ _).mp h
        obtain ⟨hx1, hx2⟩ := hx
        cases a' with
        | nil =>
          simp at hx2
        | cons y a'' =>
          rw [List.cons_append] at hx2
          have hy := (List.cons.injEq _ _ _ _).mp hx2
          exact ih a'' b hy.2
    · simp only [escQuotes, if_neg hc] at h
      cases a with
      | nil =>
        simp at h
        obtain ⟨hc2, hb⟩ := h
        rw [← hb, countQ_escQuotes]
        omega
      | cons x a' =>
        rw [List.cons_append] at h
        have hx := (List.cons.injEq _ _ _ _).mp h
        exact ih a' b hx.2

/-!  Behaviour of the comma-splitting regex on exported lines. -/

/-- the tail a join with commas produces after its first field. -/
def sepCells (cells : List (List Char)) : List Char :=
  (cells.map (fun c => ',' :: c)).flatten

theorem comma_mem_of_decomp (field a b : List Char) (h : field = a ++ ',' :: b) :
    ',' ∈ field := by
  subst h
  exact List.mem_append_right a (List.mem_cons_self _ _)

theorem countQ_append (x y : List Char) : countQ (x ++ y) = countQ x + countQ y := by
  unfold countQ
  exact List.countP_append _ x y

theorem splitCsvAux_cons (c : Char) (rest acc : List Char) :
    splitCsvAux (c :: rest) acc =
      if c = ',' ∧ countQ rest % 2 = 0 then acc.reverse :: splitCsvAux rest []
      else splitCsvAux rest (c :: acc) := rfl

theorem splitCsvAux_through (field : List Char) :
    ∀ (rest acc : List Char),
      (∀ a b, field = a ++ ',' :: b → (countQ b + countQ rest) % 2 = 1) →
      splitCsvAux (field ++ rest) acc = splitCsvAux rest (field.reverse ++ acc) := by
  induction field with
  | nil => intro rest acc _; simp
  | cons c f' ih =>
    intro rest acc h
    have hcond : ¬(c = ',' ∧ countQ (f' ++ rest) % 2 = 0) := by
      rintro ⟨hc, heven⟩
      subst hc
      have hodd := h [] f' rfl
      rw [countQ_append] at heven
      omega
    rw [List.cons_append, splitCsvAux_cons, if_neg hcond]
    have hacc : (c :: f').reverse ++ acc = f'.reverse ++ (c :: acc) := by
      rw [List.reverse_cons, List.append_assoc]
      rfl
    rw [hacc]
    exact ih rest (c :: acc) (fun a b hab => h (c :: a) b (by rw [hab, List.cons_append]))

theorem splitCsvAux_comma (rest acc : List Char) (h : countQ rest % 2 = 0) :
    splitCsvAux (',' :: rest) acc = acc.reverse :: splitCsvAux rest [] := by
  rw [splitCsvAux_cons, if_pos ⟨rfl, h⟩]

theorem countQ_zero_of_no_quote (l : List Char) (h : ∀ c ∈ l, c ≠ '"') :
    countQ l = 0 := by
  unfold countQ
  rw [List.countP_eq_zero]
  intro c hc
  simpa using h c hc

theorem countQ_sepCells_zero (cells : List (List Char))
    (h : ∀ cell ∈ cells, ∀ c ∈ cell, c ≠ '"') :
    countQ (sepCells cells) = 0 := by
  apply countQ_zero_of_no_quote
  intro c hc
  unfold sepCells at hc
  obtain ⟨piece, hpiece, hcp⟩ := List.mem_flatten.mp hc
  obtain ⟨cell, hcell, hp⟩ := List.mem_map.mp hpiece
  subst hp
  rcases List.mem_cons.mp hcp with hc2 | hc2
  · subst hc2; decide
  · exact h cell hcell c hc2

theorem splitCsvAux_cells (cells : List (List Char))
    (h : ∀ cell ∈ cells, ∀ c ∈ cell, c ≠ ',' ∧ c ≠ '"') :
    ∀ acc, splitCsvAux (sepCells cells) acc = acc.reverse :: cells := by
  induction cells with
  | nil => intro acc; simp [sepCells, splitCsvAux]
  | cons v vs ih =>
    intro acc
    have hsep : sepCells (v :: vs) = ',' :: (v ++ sepCells vs) := by
      simp [sepCells]
    rw [hsep]
    have heven : countQ (v ++ sepCells vs) % 2 = 0 := by
      rw [countQ_append]
      have h1 : countQ v = 0 := countQ_zero_of_no_quote v
        (fun c hc => (h v (List.mem_cons_self _ _) c hc).2)
      have h2 : countQ (sepCells vs) = 0 := countQ_sepCells_zero vs
        (fun cell hcell c hc => (h cell (List.mem_cons_of_mem _ hcell) c hc).2)
      omega
    rw [splitCsvAux_comma _ _ heven]
    rw [splitCsvAux_through v (sepCells vs) []
      (fun a b hab => absurd (comma_mem_of_decomp v a b hab)
        (fun hmem => (h v (List.mem_cons_self _ _) ',' hmem).1 rfl))]
    rw [List.append_nil, ih (fun cell hcell => h cell (List.mem_cons_of_mem _ hcell))
      v.reverse, List.reverse_reverse]

theorem append_singleton_eq_append_cons {α : Type} (a : List α) :
    ∀ (l : List α) (x c : α) (b : List α), l ++ [x] = a ++ c :: b →
      (b = [] ∧ c = x ∧ a = l) ∨ (∃ b', b = b' ++ [x] ∧ l = a ++ c :: b') := by
  induction a with
  | nil =>
    intro l x c b h
    rw [List.nil_append] at h
    cases l with
    | nil =>
      have hx := (List.cons.injEq _ _ _ _).mp h
      left
      exact ⟨hx.2.symm, hx.1.symm, rfl⟩
    | cons y l' =>
      rw [List.cons_append] at h
      have hy := (List.cons.injEq _ _ _ _).mp h
      right
      exact ⟨l', hy.2.symm, by rw [hy.1, List.nil_append]⟩
  | cons z a' ih =>
    intro l x c b h
    cases l with
    | nil =>
      rw [List.nil_append, List.cons_append] at h
      have hz := (List.cons.injEq _ _ _ _).mp h
      exfalso
      have := congrArg List.length hz.2
      simp at this
      omega
    | cons y l' =>
      rw [List.cons_append, List.cons_append] at h
      have hy := (List.cons.injEq _ _ _ _).mp h
      rcases ih l' x c b hy.2 with ⟨hb, hc, ha⟩ | ⟨b', hb, hl⟩
      · left
        exact ⟨hb, hc, by rw [hy.1, ha]⟩
      · right
        exact ⟨b', hb, by rw [List.cons_append, hy.1, hl]⟩

/-- any comma inside the quoted state field leaves an odd number of quotes
behind it on the line, so the regex never splits there. -/
theorem quoted_field_safe (st : List Char) (tail : List Char)
    (htail : countQ tail = 0) :
    ∀ a b, '"' :: (escQuotes st ++ ['"']) = a ++ ',' :: b →
      (countQ b + countQ tail) % 2 = 1 := by
  intro a b h
  cases a with
  | nil =>
    rw [List.nil_append] at h
    exact absurd ((List.cons.injEq _ _ _ _).mp h).1 (by decide)
  | cons x a' =>
    rw [List.cons_append] at h
    have hx := (List.cons.injEq _ _ _ _).mp h
    rcases append_singleton_eq_append_cons a' (escQuotes st) '"' ',' b hx.2 with
      ⟨_, hcx, _⟩ | ⟨b', hb, hesc⟩
    · exact absurd hcx (by decide)
    · have hev : countQ b' % 2 = 0 := esc_comma_suffix_even st a' b' hesc
      have hq1 : countQ ['"'] = 1 := by decide
      rw [hb, countQ_append, hq1]
      omega

theorem splitCsvLine_quoted_row (st : List Char) (cells : List (List Char))
    (hcells : ∀ cell ∈ cells, ∀ c ∈ cell, c ≠ ',' ∧ c ≠ '"') :
    splitCsvLine (('"' :: (escQuotes st ++ ['"'])) ++ sepCells cells)
      = ('"' :: (escQuotes st ++ ['"'])) :: cells := by
  unfold splitCsvLine
  rw [splitCsvAux_through _ _ _
    (fun a b hab => quoted_field_safe st (sepCells cells)
      (countQ_sepCells_zero cells (fun cell hc c hcc => (hcells cell hc c hcc).2)) a b hab)]
  rw [List.append_nil, splitCsvAux_cells cells hcells, List.reverse_reverse]

theorem splitCsvLine_plain_row (field : List Char) (cells : List (List Char))
    (hfield : ∀ c ∈ field, c ≠ ',' ∧ c ≠ '"')
    (hcells : ∀ cell ∈ cells, ∀ c ∈ cell, c ≠ ',' ∧ c ≠ '"') :
    splitCsvLine (field ++ sepCells cells) = field :: cells := by
  unfold splitCsvLine
  rw [splitCsvAux_through _ _ _
    (fun a b hab => absurd (comma_mem_of_decomp field a b hab)
      (fun hmem => (hfield ',' hmem).1 rfl))]
  rw [List.append_nil, splitCsvAux_cells cells hcells, List.reverse_reverse]

/-!  Column cleanup on exported fields. -/

theorem dropWhile_eq_self_of_all (p : Char → Bool) (l : List Char)
    (h : ∀ c ∈ l, p c = false) : l.dropWhile p = l := by
  cases l with
  | nil => rfl
  | cons c t =>
    rw [List.dropWhile_cons]
    rw [h c (List.mem_cons_self _ _)]
    simp

theorem trimChars_of_no_ws (l : List Char) (h : ∀ c ∈ l, isWS c = false) :
    trimChars l = l := by
  unfold trimChars
  rw [dropWhile_eq_self_of_all isWS l h]
  rw [dropWhile_eq_self_of_all isWS l.reverse
    (fun c hc => h c (List.mem_reverse.mp hc))]
  exact List.reverse_reverse l

theorem trimChars_keep_ends (c1 c2 : Char) (mid : List Char)
    (h1 : isWS c1 = false) (h2 : isWS c2 = false) :
    trimChars (c1 :: (mid ++ [c2])) = c1 :: (mid ++ [c2]) := by
  unfold trimChars
  rw [List.dropWhile_cons, h1]
  simp only [Bool.false_eq_true, if_false]
  have hrev : (c1 :: (mid ++ [c2])).reverse = c2 :: (mid.reverse ++ [c1]) := by
    rw [List.reverse_cons, List.reverse_append]
    simp
  rw [hrev, List.dropWhile_cons, h2]
  simp only [Bool.false_eq_true, if_false]
  rw [← hrev, List.reverse_reverse]

theorem processCol_digits (l : List Char) (hne : l ≠ [])
    (h : ∀ c ∈ l, c.isDigit = true ∨ c = '-') :
    processCol l = l := by
  have hws : ∀ c ∈ l, isWS c = false := by
    intro c hc
    rcases h c hc with hd | hd
    · exact (digit_safe c hd).2.2.2.2
    · subst hd; decide
  have hnq : ∀ c ∈ l, c ≠ '"' := by
    intro c hc
    rcases h c hc with hd | hd
    · exact (digit_safe c hd).2.1
    · subst hd; decide
  unfold processCol
  rw [trimChars_of_no_ws l hws]
  have hcond : ¬(l.head? = some '"' ∧ l.getLast? = some '"') := by
    rintro ⟨hh, _⟩
    cases l with
    | nil => simp at hh
    | cons c t =>
      simp at hh
      exact hnq '"' (by rw [← hh]; exact List.mem_cons_self _ _) rfl
  rw [if_neg hcond]

theorem processCol_quoted (st : List Char) :
    processCol ('"' :: (escQuotes st ++ ['"'])) = st := by
  unfold processCol
  rw [trimChars_keep_ends '"' '"' (escQuotes st) (by decide) (by decide)]
  have hh : ('"' :: (escQuotes st ++ ['"'])).head? = some '"' := rfl
  have hl : ('"' :: (escQuotes st ++ ['"'])).getLast? = some '"' := by
    rw [show ('"' :: (escQuotes st ++ ['"'])) = ('"' :: escQuotes st) ++ ['"'] from by
      rw [List.cons_append]]
    exact List.getLast?_concat _
  rw [if_pos ⟨hh, hl⟩]
  rw [show ('"' :: (escQuotes st ++ ['"'])).drop 1 = escQuotes st ++ ['"'] from rfl]
  rw [List.dropLast_concat]
  exact unesc_esc st

/-!  Line splitting of the exported text. -/

theorem splitLinesAux_cons (c : Char) (rest acc : List Char) :
    splitLinesAux (c :: rest) acc =
      if c = '\n' then dropCR acc.reverse :: splitLinesAux rest []
      else splitLinesAux rest (c :: acc) := rfl

theorem splitLinesAux_through (l : List Char) :
    ∀ (rest acc : List Char), (∀ c ∈ l, c ≠ '\n') →
      splitLinesAux (l ++ rest) acc = splitLinesAux rest (l.reverse ++ acc) := by
  induction l with
  | nil => intro rest acc _; simp
  | cons c t ih =>
    intro rest acc h
    rw [List.cons_append, splitLinesAux_cons,
      if_neg (h c (List.mem_cons_self _ _))]
    have hacc : (c :: t).reverse ++ acc = t.reverse ++ (c :: acc) := by
      rw [List.reverse_cons, List.append_assoc]
      rfl
    rw [hacc]
    exact ih rest (c :: acc) (fun d hd => h d (List.mem_cons_of_mem _ hd))

theorem gen_getLast?_mem {α : Type} (l : List α) (a : α)
    (h : l.getLast? = some a) : a ∈ l := by
  induction l with
  | nil => simp at h
  | cons x rest ih =>
    cases rest with
    | nil =>
      simp [List.getLast?] at h
      simp [h]
    | cons y t =>
      rw [List.getLast?_cons_cons] at h
      exact List.mem_cons_of_mem x (ih h)

theorem dropCR_no_cr (l : List Char) (h : '\r' ∉ l) : dropCR l = l := by
  unfold dropCR
  rw [if_neg]
  intro hc
  exact h (gen_getLast?_mem l '\r' hc)

theorem joinNL_cons_cons (a b : List Char) (t : List (List Char)) :
    joinNL (a :: b :: t) = a ++ '\n' :: joinNL (b :: t) := by
  simp [joinNL]

theorem splitLines_joinNL (ls : List (List Char)) (hne : ls ≠ [])
    (h : ∀ l ∈ ls, (∀ c ∈ l, c ≠ '\n') ∧ '\r' ∉ l) :
    splitLines (joinNL ls) = ls := by
  induction ls with
  | nil => exact absurd rfl hne
  | cons l rest ih =>
    cases rest with
    | nil =>
      unfold splitLines
      rw [show joinNL [l] = l ++ [] from by simp [joinNL]]
      rw [splitLinesAux_through l [] []
        (h l (List.mem_cons_self _ _)).1]
      rw [List.append_nil]
      rw [show splitLinesAux [] l.reverse = [l.reverse.reverse] from rfl]
      rw [List.reverse_reverse]
    | cons l2 t =>
      unfold splitLines
      rw [joinNL_cons_cons]
      rw [splitLinesAux_through l ('\n' :: joinNL (l2 :: t)) []
        (h l (List.mem_cons_self _ _)).1]
      rw [splitLinesAux_cons, if_pos rfl]
      rw [List.append_nil, List.reverse_reverse]
      rw [dropCR_no_cr l (h l (List.mem_cons_self _ _)).2]
      have hrec := ih (by simp)
        (fun x hx => h x (List.mem_cons_of_mem _ hx))
      unfold splitLines at hrec
      rw [hrec]

/-!  Exported lines are never blank. -/

theorem dropWhile_nil_all (p : Char → Bool) (l : List Char)
    (h : l.dropWhile p = []) : ∀ c ∈ l, p c = true := by
  rw [List.dropWhile_eq_nil_iff] at h
  exact h

theorem all_ws_of_trim_nil (l : List Char) (h : trimChars l = []) :
    ∀ c ∈ l, isWS c = true := by
  unfold trimChars at h
  have h2 : (l.dropWhile isWS).reverse.dropWhile isWS = [] := by
    cases hx : (l.dropWhile isWS).reverse.dropWhile isWS with
    | nil => rfl
    | cons a t => rw [hx] at h; simp at h
  have hall2 : ∀ c ∈ (l.dropWhile isWS).reverse, isWS c = true :=
    dropWhile_nil_all isWS _ h2
  have hall1 : ∀ c ∈ l.dropWhile isWS, isWS c = true := by
    intro c hc
    exact hall2 c (List.mem_reverse.mpr hc)
  intro c hc
  rw [← List.takeWhile_append_dropWhile isWS l] at hc
  rcases List.mem_append.mp hc with hc | hc
  · exact List.mem_takeWhile_imp hc
  · exact hall1 c hc

theorem trim_nonblank (l : List Char) (c : Char) (hc : c ∈ l)
    (hw : isWS c = false) : 0 < (trimChars l).length := by
  rw [List.length_pos]
  intro hnil
  have hws := all_ws_of_trim_nil l hnil c hc
  rw [hws] at hw
  exact Bool.noConfusion hw

/-!  JavaScript object construction in parseCSV. -/

theorem setKey_append (r : RawRecord) (k : String) (v : Scalar)
    (h : ∀ p ∈ r, p.1 ≠ k) : setKey r k v = r ++ [(k, v)] := by
  unfold setKey
  rw [if_neg]
  intro hany
  obtain ⟨p, hp, hpk⟩ := List.any_eq_true.mp hany
  exact h p hp (by simpa using hpk)

theorem foldl_setKey_of_nodup (l : List (String × Scalar)) :
    ∀ (acc : List (String × Scalar)),
      (acc.map Prod.fst ++ l.map Prod.fst).Nodup →
      l.foldl (fun r q => setKey r q.1 q.2) acc = acc ++ l := by
  induction l with
  | nil => intro acc _; simp
  | cons q rest ih =>
    intro acc hnd
    rw [List.foldl_cons]
    have hdisj := List.disjoint_of_nodup_append hnd
    have hknot : ∀ p ∈ acc, p.1 ≠ q.1 := by
      intro p hp hpq
      exact hdisj (List.mem_map_of_mem Prod.fst hp)
        (by rw [List.map_cons, hpq]; exact List.mem_cons_self _ _)
    rw [setKey_append acc q.1 q.2 hknot]
    have hassoc : (acc ++ [(q.1, q.2)]).map Prod.fst ++ rest.map Prod.fst
        = acc.map Prod.fst ++ (q :: rest).map Prod.fst := by
      simp
    have hnd2 : ((acc ++ [(q.1, q.2)]).map Prod.fst ++ rest.map Prod.fst).Nodup := by
      rw [hassoc]
      exact hnd
    rw [ih (acc ++ [(q.1, q.2)]) hnd2]
    simp

theorem padScal_full (cols : List (List Char)) :
    padScal cols cols.length = cols.map (fun c => Scalar.str (String.mk c)) := by
  induction cols with
  | nil => rfl
  | cons c rest ih =>
    simp only [List.length_cons, padScal, List.map_cons]
    rw [ih]

theorem buildRow_zip (headers cols : List (List Char))
    (hlen : headers.length = cols.length)
    (hnd : (headers.map String.mk).Nodup) :
    buildRow headers cols
      = (headers.map String.mk).zip (cols.map (fun c => Scalar.str (String.mk c))) := by
  unfold buildRow
  rw [hlen, padScal_full cols]
  apply foldl_setKey_of_nodup
  simp only [List.map_nil, List.nil_append]
  have hlen2 : (headers.map String.mk).length
      ≤ (cols.map (fun c => Scalar.str (String.mk c))).length := by
    simp [hlen]
  rw [List.map_fst_zip _ _ hlen2]
  exact hnd

/-!  Assembly of the round-trip: exported lines split, clean and zip back into
the original state, year and value triples. -/

theorem intToChars_ne_nil (i : Int) : intToChars i ≠ [] := by
  unfold intToChars
  by_cases hi : i < 0
  · simp [hi]
  · simp [hi, natToChars_ne_nil]

theorem intToChars_digit_or_dash (i : Int) :
    ∀ c ∈ intToChars i, c.isDigit = true ∨ c = '-' := by
  intro c hc
  unfold intToChars at hc
  by_cases hi : i < 0
  · rw [if_pos hi] at hc
    rcases List.mem_cons.mp hc with hc | hc
    · right; exact hc
    · left; exact natToChars_all_digits _ c hc
  · rw [if_neg hi] at hc
    left
    exact natToChars_all_digits _ c hc

theorem csvCellChars_eq (o : Option Int) : csvCellChars o = intToChars (o.getD 0) := by
  cases o with
  | none => rfl
  | some v =>
    by_cases hv : v = 0
    · subst hv; rfl
    · show (if (v != 0) = true then intToChars v else intToChars 0)
        = intToChars ((some v).getD 0)
      rw [if_pos (by simpa using hv)]
      rfl

theorem headerChars_decomp (years : List Int) :
    headerChars years = "State".data ++ sepCells (years.map intToChars) := by
  unfold headerChars sepCells
  congr 1
  rw [List.map_map]
  rfl

theorem rowChars_decomp (grid : String → Int → Option Int) (st : String)
    (years : List Int) :
    rowChars grid st years
      = ('"' :: (escQuotes st.data ++ ['"']))
        ++ sepCells (years.map (fun y => csvCellChars (grid st y))) := by
  unfold rowChars quoteState sepCells
  congr 1
  rw [List.map_map]
  rfl

theorem mem_sepCells (cells : List (List Char)) (c : Char) (h : c ∈ sepCells cells) :
    c = ',' ∨ ∃ cell ∈ cells, c ∈ cell := by
  unfold sepCells at h
  obtain ⟨piece, hpiece, hcp⟩ := List.mem_flatten.mp h
  obtain ⟨cell, hcell, hp⟩ := List.mem_map.mp hpiece
  subst hp
  rcases List.mem_cons.mp hcp with hc2 | hc2
  · left; exact hc2
  · right; exact ⟨cell, hcell, hc2⟩

theorem yearCells_safe (years : List Int) :
    ∀ cell ∈ years.map intToChars, ∀ c ∈ cell, c ≠ ',' ∧ c ≠ '"' := by
  intro cell hcell c hc
  obtain ⟨y, _, hy⟩ := List.mem_map.mp hcell
  subst hy
  have hs := intToChars_safe y c hc
  exact ⟨hs.1, hs.2.1⟩

theorem valueCells_safe (grid : String → Int → Option Int) (st : String)
    (years : List Int) :
    ∀ cell ∈ years.map (fun y => csvCellChars (grid st y)),
      ∀ c ∈ cell, c ≠ ',' ∧ c ≠ '"' := by
  intro cell hcell c hc
  obtain ⟨y, _, hy⟩ := List.mem_map.mp hcell
  rw [← hy, csvCellChars_eq] at hc
  have hs := intToChars_safe _ c hc
  exact ⟨hs.1, hs.2.1⟩

theorem stateWord_plain : ∀ c ∈ "State".data, c ≠ ',' ∧ c ≠ '"' := by decide

theorem stateWord_nl : ∀ c ∈ "State".data, c ≠ '\n' ∧ c ≠ '\r' := by decide

theorem header_line_safe (years : List Int) :
    (∀ c ∈ headerChars years, c ≠ '\n') ∧ '\r' ∉ headerChars years := by
  have hall : ∀ c ∈ headerChars years, c ≠ '\n' ∧ c ≠ '\r' := by
    intro c hc
    rw [headerChars_decomp] at hc
    rcases List.mem_append.mp hc with hc | hc
    · exact stateWord_nl c hc
    · rcases mem_sepCells _ c hc with hc | ⟨cell, hcell, hcc⟩
      · subst hc; exact ⟨by decide, by decide⟩
      · obtain ⟨y, _, hy⟩ := List.mem_map.mp hcell
        subst hy
        have hs := intToChars_safe y c hcc
        exact ⟨hs.2.2.1, hs.2.2.2.1⟩
  exact ⟨fun c hc => (hall c hc).1, fun hmem => (hall '\r' hmem).2 rfl⟩

theorem row_line_safe (grid : String → Int → Option Int) (st : String)
    (years : List Int) (hst : ∀ c ∈ st.data, c ≠ '\n' ∧ c ≠ '\r') :
    (∀ c ∈ rowChars grid st years, c ≠ '\n') ∧ '\r' ∉ rowChars grid st years := by
  have hall : ∀ c ∈ rowChars grid st years, c ≠ '\n' ∧ c ≠ '\r' := by
    intro c hc
    rw [rowChars_decomp] at hc
    rcases List.mem_cons.mp hc with hc | hc
    · subst hc; exact ⟨by decide, by decide⟩
    · rcases List.mem_append.mp hc with hc | hc
      · rcases List.mem_append.mp hc with hc | hc
        · exact hst c (mem_escQuotes _ c hc)
        · simp at hc
          subst hc
          exact ⟨by decide, by decide⟩
      · rcases mem_sepCells _ c hc with hc | ⟨cell, hcell, hcc⟩
        · subst hc; exact ⟨by decide, by decide⟩
        · obtain ⟨y, _, hy⟩ := List.mem_map.mp hcell
          rw [← hy, csvCellChars_eq] at hcc
          have hs := intToChars_safe _ c hcc
          exact ⟨hs.2.2.1, hs.2.2.2.1⟩
  exact ⟨fun c hc => (hall c hc).1, fun hmem => (hall '\r' hmem).2 rfl⟩

theorem processCol_State : processCol "State".data = "State".data := by decide

theorem cells_processed (cells : List (List Char))
    (h : ∀ cell ∈ cells, cell ≠ [] ∧ ∀ c ∈ cell, c.isDigit = true ∨ c = '-') :
    cells.map processCol = cells := by
  have : cells.map processCol = cells.map id := by
    apply list_map_congr
    intro cell hcell
    rw [processCol_digits cell (h cell hcell).1 (h cell hcell).2]
    rfl
  rw [this, List.map_id]

theorem header_cols (years : List Int) :
    csvLineToCols (headerChars years) = "State".data :: years.map intToChars := by
  rw [headerChars_decomp]
  unfold csvLineToCols
  rw [splitCsvLine_plain_row "State".data (years.map intToChars)
    stateWord_plain (yearCells_safe years)]
  rw [List.map_cons, processCol_State]
  congr 1
  apply cells_processed
  intro cell hcell
  obtain ⟨y, _, hy⟩ := List.mem_map.mp hcell
  subst hy
  exact ⟨intToChars_ne_nil y, intToChars_digit_or_dash y⟩

theorem row_cols (grid : String → Int → Option Int) (st : String)
    (years : List Int) :
    csvLineToCols (rowChars grid st years)
      = st.data :: years.map (fun y => csvCellChars (grid st y)) := by
  rw [rowChars_decomp]
  unfold csvLineToCols
  rw [splitCsvLine_quoted_row st.data (years.map (fun y => csvCellChars (grid st y)))
    (valueCells_safe grid st years)]
  rw [List.map_cons, processCol_quoted]
  congr 1
  apply cells_processed
  intro cell hcell
  obtain ⟨y, _, hy⟩ := List.mem_map.mp hcell
  rw [← hy, csvCellChars_eq]
  exact ⟨intToChars_ne_nil _, intToChars_digit_or_dash _⟩

theorem header_keys_nodup (years : List Int) (hny : years.Nodup) :
    (("State".data :: years.map intToChars).map String.mk).Nodup := by
  rw [List.map_cons, List.map_map]
  have hmkinj : Function.Injective String.mk := fun a b h => congrArg String.data h
  rw [List.nodup_cons]
  constructor
  · intro hmem
    obtain ⟨y, _, hy⟩ := List.mem_map.mp hmem
    have hdata : intToChars y = "State".data := congrArg String.data hy
    have hS : 'S' ∈ intToChars y := by
      rw [hdata]; decide
    rcases intToChars_digit_or_dash y 'S' hS with hd | hd
    · exact absurd hd (by decide)
    · exact absurd hd (by decide)
  · exact hny.map (fun a b h => intToChars_inj a b (hmkinj h))

theorem row_record (grid : String → Int → Option Int) (st : String)
    (years : List Int) (hny : years.Nodup) :
    buildRow ("State".data :: years.map intToChars)
        (st.data :: years.map (fun y => csvCellChars (grid st y)))
      = ("State", Scalar.str st)
          :: years.map (fun y =>
              (intToString y, Scalar.str (intToString ((grid st y).getD 0)))) := by
  rw [buildRow_zip _ _ (by simp) (header_keys_nodup years hny)]
  rw [List.map_cons, List.map_cons, List.zip_cons_cons, List.map_map, List.map_map]
  rw [List.zip_map']
  congr 1
  apply list_map_congr
  intro y _
  show (intToString y, Scalar.str (String.mk (csvCellChars (grid st y)))) = _
  rw [csvCellChars_eq]
  rfl

/-- C8 amended: exporting a grid over given states and years and re-parsing
the text with parseCSV yields, for every state in order, the record mapping
State to the state name and each year column to the printed cell value
(absent cells as 0) — provided the state names contain no line breaks
(a newline inside a state name breaks the line-oriented parse, see the
counterexample) and the years are distinct, as they are in a pivot. -/
theorem csv_roundtrip_amended (grid : String → Int → Option Int)
    (states : List String) (years : List Int) (hny : years.Nodup)
    (hst : ∀ st ∈ states, ∀ c ∈ st.data, c ≠ '\n' ∧ c ≠ '\r') :
    parseCSV (exportCSV grid states years)
      = states.map (fun st =>
          ("State", Scalar.str st)
            :: years.map (fun y =>
                (intToString y, Scalar.str (intToString ((grid st y).getD 0))))) := by
  have hdata : (exportCSV grid states years).data
      = joinNL (headerChars years :: states.map (fun st => rowChars grid st years)) := rfl
  have hsafe : ∀ l ∈ headerChars years :: states.map (fun st => rowChars grid st years),
      (∀ c ∈ l, c ≠ '\n') ∧ '\r' ∉ l := by
    intro l hl
    rcases List.mem_cons.mp hl with hl | hl
    · subst hl; exact header_line_safe years
    · obtain ⟨st, hstm, hrow⟩ := List.mem_map.mp hl
      subst hrow
      exact row_line_safe grid st years (hst st hstm)
  have hnonblank : ∀ l ∈ headerChars years :: states.map (fun st => rowChars grid st years),
      (decide ((trimChars l).length > 0)) = true := by
    intro l hl
    rcases List.mem_cons.mp hl with hl | hl
    · subst hl
      have hS : 'S' ∈ headerChars years := by
        rw [headerChars_decomp]
        exact List.mem_append_left _ (by decide)
      simpa using trim_nonblank _ 'S' hS (by decide)
    · obtain ⟨st, _, hrow⟩ := List.mem_map.mp hl
      subst hrow
      have hq : '"' ∈ rowChars grid st years := by
        rw [rowChars_decomp]
        exact List.mem_cons_self _ _
      simpa using trim_nonblank _ '"' hq (by decide)
  unfold parseCSV
  rw [hdata]
  rw [splitLines_joinNL _ (by simp) hsafe]
  rw [List.filter_eq_self.mpr hnonblank]
  show List.map (fun line => buildRow (csvLineToCols (headerChars years))
      (csvLineToCols line)) (List.map (fun st => rowChars grid st years) states) = _
  rw [List.map_map]
  apply list_map_congr
  intro st hstm
  show buildRow (csvLineToCols (headerChars years))
      (csvLineToCols (rowChars grid st years)) = _
  rw [header_cols, row_cols]
  exact row_record grid st years hny

/-- C8 counterexample: with the single state name containing a newline the
exported text parses into two mangled records instead of reproducing the
(state, year, value) triple. -/
theorem csv_roundtrip_counterexample :
    parseCSV (exportCSV (fun _ _ => some 7) ["a\nb"] [2019])
      = [[("State", Scalar.str "\"a"), ("2019", Scalar.null)],
         [("State", Scalar.str "b\""), ("2019", Scalar.str "7")]] ∧
    parseCSV (exportCSV (fun _ _ => some 7) ["a\nb"] [2019])
      ≠ [[("State", Scalar.str "a\nb"), ("2019", Scalar.str "7")]] :=
  ⟨by decide, by decide⟩

/-- witness: a state name with a comma and a quote round-trips exactly. -/
theorem csv_roundtrip_amended_witness :
    parseCSV (exportCSV (fun _ _ => some 7) ["Oh,i\"o"] [2019, 2020])
      = [[("State", Scalar.str "Oh,i\"o"),
          (intToString 2019, Scalar.str (intToString (((fun (_ : String) (_ : Int) =>
            some (7 : Int)) "Oh,i\"o" 2019).getD 0))),
          (intToString 2020, Scalar.str (intToString (((fun (_ : String) (_ : Int) =>
            some (7 : Int)) "Oh,i\"o" 2020).getD 0)))]] := by
  have h := csv_roundtrip_amended (fun _ _ => some 7) ["Oh,i\"o"] [2019, 2020]
    (by decide) (by decide)
  simpa using h

